import Mathlib

/-!
Verification development for the llresearch retrieval pipeline.

Shallow embedding of the pipeline's Python modules:
  - `ingest/cleaner.py`  (date extraction, Q/A pair parsing, session cleaning)
  - `ingest/chunker.py`  (chunk ids, chunk text, per-session chunking)
  - `embeddings/embed.py` (embedding + upsert into the vector store)
  - `agent/retriever.py` (semantic search, hybrid search, browse by session)

Strings are modelled as `List Char` (Python `str`), machine text operations
character by character.  External collaborators (the ChromaDB vector store and
the Ollama embedding service) are modelled from the spec's external-interface
contracts; every such definition is marked "Modelled from the spec".  Python
regular expressions used by the source are compiled by hand into deterministic
character-level matchers that implement the same leftmost-match / greedy /
lazy semantics for the concrete patterns appearing in the source.
-/

set_option maxRecDepth 4000

namespace LlRag

/-! ### Python-style character classes and string helpers

Python's `\s`, `\d`, `\w` and `str.strip` over the ASCII range (the corpus is
ASCII after the smart-quote normalisation pass). -/

def pyIsSpace (c : Char) : Bool :=
  c = ' ' || c = '\t' || c = '\n' || c = '\r' || c = '\x0b' || c = '\x0c'

def pyIsWordChar (c : Char) : Bool :=
  c.isAlphanum || c = '_'

/-- Python `str.strip()`: drop leading and trailing whitespace. -/
def pyStrip (l : List Char) : List Char :=
  ((l.dropWhile pyIsSpace).reverse.dropWhile pyIsSpace).reverse

/-- Case-insensitive character comparison (re.IGNORECASE). -/
def lowerEq (a b : Char) : Bool :=
  a.toLower = b.toLower

/-- Does `t` start with pattern `p`, case-insensitively? -/
def startsWithCI : List Char → List Char → Bool
  | [], _ => true
  | _ :: _, [] => false
  | p :: ps, t :: ts => lowerEq p t && startsWithCI ps ts

/-- Does `t` start with pattern `p` (case-sensitive)? -/
def startsWithCS : List Char → List Char → Bool
  | [], _ => true
  | _ :: _, [] => false
  | p :: ps, t :: ts => (p = t) && startsWithCS ps ts

/-- Leftmost case-sensitive occurrence of `pat`: returns the text before the
occurrence and the text after it, or `none` when `pat` does not occur. -/
def splitFirstCS (pat : List Char) : List Char → Option (List Char × List Char)
  | [] => if startsWithCS pat [] then some ([], []) else none
  | c :: t =>
    if startsWithCS pat (c :: t) then some ([], (c :: t).drop pat.length)
    else (splitFirstCS pat t).map (fun p => (c :: p.1, p.2))

/-- Leftmost case-insensitive occurrence of `pat` (re.IGNORECASE search). -/
def splitFirstCI (pat : List Char) : List Char → Option (List Char × List Char)
  | [] => if startsWithCI pat [] then some ([], []) else none
  | c :: t =>
    if startsWithCI pat (c :: t) then some ([], (c :: t).drop pat.length)
    else (splitFirstCI pat t).map (fun p => (c :: p.1, p.2))

/-- Count the occurrences (at every start position) of `needle`. -/
def countSub (needle : List Char) : List Char → ℕ
  | [] => 0
  | c :: t => (if startsWithCS needle (c :: t) then 1 else 0) + countSub needle t

/-! ### cleaner.py — configuration -/

/-- Book → session range mapping (inclusive), `BOOK_MAP` of cleaner.py,
as the (book, start, end) rows in insertion order. -/
def BOOK_MAP : List (ℕ × ℕ × ℕ) :=
  [(1, 1, 26), (2, 27, 50), (3, 51, 75), (4, 76, 99), (5, 100, 106)]

/-- `session_to_book` of cleaner.py.  The Python function raises `ValueError`
when no configured range contains `n`; the raise is modelled as `none`. -/
def session_to_book (n : ℕ) : Option ℕ :=
  BOOK_MAP.findSome? (fun b => if b.2.1 ≤ n ∧ n ≤ b.2.2 then some b.1 else none)

/-! ### cleaner.py — `extract_date`

The source searches `text[:2000]` for, in order,
  pattern 1: `\b(\w+ \d{1,2},\s*\d{4})\b`   -- "January 15, 1981"
  pattern 2: `\b(\d{4}-\d{2}-\d{2})\b`      -- "1981-01-15"
returning the first match's group verbatim, else `"unknown"`. -/

/-- Tail of pattern 1 after the `\w+` run: matches `\d{1,2},\s*\d{4}\b`
against `r` preceded by the literal space; backtracks from two digits to one
exactly as the regex engine does. -/
def matchAfterDigits (ds : List Char) (r : List Char) : Option (List Char) :=
  match r with
  | ',' :: r2 =>
    let sp := r2.takeWhile pyIsSpace
    let r3 := r2.dropWhile pyIsSpace
    match r3 with
    | a :: b :: c :: d :: rest =>
      if a.isDigit && b.isDigit && c.isDigit && d.isDigit
          && !(match rest with | e :: _ => pyIsWordChar e | [] => false) then
        some (ds ++ ',' :: sp ++ [a, b, c, d])
      else none
    | _ => none
  | _ => none

/-- Matches ` \d{1,2},\s*\d{4}\b` (the part of pattern 1 after `\w+`),
returning the matched characters including the leading space. -/
def matchP1Tail : List Char → Option (List Char)
  | ' ' :: r1 =>
    let two :=
      match r1 with
      | d1 :: d2 :: r2 =>
        if d1.isDigit && d2.isDigit then matchAfterDigits [d1, d2] r2 else none
      | _ => none
    let one :=
      match r1 with
      | d1 :: r2 => if d1.isDigit then matchAfterDigits [d1] r2 else none
      | _ => none
    (two.orElse (fun _ => one)).map (fun m => ' ' :: m)
  | _ => none

/-- Greedy `\w+` with backtracking: `wrev` is the reversed word run still
claimed by `\w+`, `rest` the remaining text; the longest run is tried first. -/
def goP1 : List Char → List Char → Option (List Char)
  | [], _ => none
  | c :: wrest, rest =>
    match matchP1Tail rest with
    | some tail => some ((c :: wrest).reverse ++ tail)
    | none => goP1 wrest (c :: rest)

/-- Pattern 1 anchored at the current position (the `\b` was already
checked by the caller). -/
def matchP1At (l : List Char) : Option (List Char) :=
  goP1 (l.takeWhile pyIsWordChar).reverse (l.dropWhile pyIsWordChar)

/-- `re.search` for pattern 1: scan left to right, tracking the previous
character for the `\b` word-boundary test. -/
def searchP1 : List Char → Option Char → Option (List Char)
  | [], _ => none
  | c :: t, prev =>
    let boundary := pyIsWordChar c &&
      (match prev with | none => true | some p => !pyIsWordChar p)
    match (if boundary then matchP1At (c :: t) else none) with
    | some m => some m
    | none => searchP1 t (some c)

/-- Pattern 2 anchored at the current position: `\d{4}-\d{2}-\d{2}\b`. -/
def matchP2At (l : List Char) : Option (List Char) :=
  match l with
  | a :: b :: c :: d :: '-' :: e :: f :: '-' :: g :: h :: rest =>
    if a.isDigit && b.isDigit && c.isDigit && d.isDigit && e.isDigit && f.isDigit
        && g.isDigit && h.isDigit
        && !(match rest with | x :: _ => pyIsWordChar x | [] => false) then
      some [a, b, c, d, '-', e, f, '-', g, h]
    else none
  | _ => none

/-- `re.search` for pattern 2. -/
def searchP2 : List Char → Option Char → Option (List Char)
  | [], _ => none
  | c :: t, prev =>
    let boundary :=
      match prev with | none => true | some p => !pyIsWordChar p
    match (if boundary then matchP2At (c :: t) else none) with
    | some m => some m
    | none => searchP2 t (some c)

/-- `extract_date` of cleaner.py, over the flattened page text
(`soup.get_text()` is the external HTML library; its output is this
function's input). -/
def extract_date (text : List Char) : List Char :=
  let t := text.take 2000
  match searchP1 t none with
  | some m => m
  | none =>
    match searchP2 t none with
    | some m => m
    | none => "unknown".data

/-! ### cleaner.py — `_normalize_whitespace` -/

/-- Smart-quote and dash replacement table of `_normalize_whitespace`
(the em-dash expands to two characters, hence a list result). -/
def replaceSpecialChar (c : Char) : List Char :=
  if c = '‘' || c = '’' then [Char.ofNat 39]
  else if c = '“' || c = '”' then [Char.ofNat 34]
  else if c = '—' then ['-', '-']
  else if c = '–' then ['-']
  else [c]

/-- `re.sub(r"\n{3,}", "\n\n", text)`: keep at most two consecutive
newlines; `k` counts the newlines already emitted in the current run. -/
def collapseNlAux : List Char → ℕ → List Char
  | [], _ => []
  | c :: t, k =>
    if c = '\n' then
      if k < 2 then '\n' :: collapseNlAux t (k + 1) else collapseNlAux t (k + 1)
    else c :: collapseNlAux t 0

/-- `_normalize_whitespace` of cleaner.py. -/
def normalize_whitespace (text : List Char) : List Char :=
  pyStrip (collapseNlAux ((text.map replaceSpecialChar).flatten) 0)

/-! ### cleaner.py — `_parse_qa_pairs` (the primary, "structural" pass)

The source splits the flattened text on the compiled marker
`(?m)^(?:Ra:|RA:)\s*I am Ra[.,]?` with `re.IGNORECASE` and pairs each
resulting answer segment with a question extracted from the preceding
segment. -/

/-- The Ra answer marker, anchored at the current position (the caller
checks the `(?m)^` line-start anchor).  With IGNORECASE, `(?:Ra:|RA:)` is
just a caseless `ra:`.  Returns the text after the marker.  The greedy
`\s*` and the optional `[.,]` are deterministic here because the following
literal is not a space.  Note the matched span never ends in a newline
(it ends in `a`, `.` or `,`). -/
def matchRaMarker (l : List Char) : Option (List Char) :=
  if startsWithCI "ra:".data l then
    let r1 := (l.drop 3).dropWhile pyIsSpace
    if startsWithCI "i am ra".data r1 then
      let r2 := r1.drop 7
      match r2 with
      | c :: t => if c = '.' || c = ',' then some t else some r2
      | [] => some []
    else none
  else none

/-- `re.split` on the Ra marker: left-to-right non-overlapping scan.
`atLS` tracks whether the position is at a line start (`(?m)^`), `cur` the
current segment reversed, `acc` the finished segments.  Fuel is the text
length; every step consumes at least one character. -/
def raSplitAux : ℕ → List Char → Bool → List Char → List (List Char) → List (List Char)
  | _, [], _, cur, acc => acc ++ [cur.reverse]
  | 0, l, _, cur, acc => acc ++ [cur.reverse ++ l]
  | fuel + 1, c :: t, atLS, cur, acc =>
    if atLS then
      match matchRaMarker (c :: t) with
      | some rest => raSplitAux fuel rest false [] (acc ++ [cur.reverse])
      | none => raSplitAux fuel t (c = '\n') (c :: cur) acc
    else raSplitAux fuel t (c = '\n') (c :: cur) acc

def raSplit (l : List Char) : List (List Char) :=
  raSplitAux l.length l true [] []

/-- The `re.match(r"^Session\s+\d+", last, re.I)` test of
`_extract_question`'s paragraph fallback. -/
def matchesSessionHeader (l : List Char) : Bool :=
  if startsWithCI "session".data l then
    let r := l.drop 7
    let r2 := r.dropWhile pyIsSpace
    decide (r2.length < r.length) && (match r2 with | c :: _ => c.isDigit | [] => false)
  else false

/-- Python `text.split("\n\n")` (used by `_extract_question`'s fallback):
non-overlapping leftmost splits, empty pieces kept. -/
def splitOnSubAux : ℕ → List Char → List Char → List Char → List (List Char) → List (List Char)
  | _, _, [], cur, acc => acc ++ [cur.reverse]
  | 0, _, l, cur, acc => acc ++ [cur.reverse ++ l]
  | fuel + 1, sep, c :: t, cur, acc =>
    if startsWithCS sep (c :: t) then
      splitOnSubAux fuel sep ((c :: t).drop sep.length) [] (acc ++ [cur.reverse])
    else splitOnSubAux fuel sep t (c :: cur) acc

def splitOnSub (sep l : List Char) : List (List Char) :=
  splitOnSubAux l.length sep l [] []

/-- Paragraph fallback of `_extract_question`: take the last non-empty
stripped paragraph if it is longer than 20 characters and not a
session header. -/
def extractQuestionFallback (t : List Char) : Option (List Char) :=
  let paragraphs := ((splitOnSub "\n\n".data t).map pyStrip).filter (fun p => !decide (p = []))
  match paragraphs.getLast? with
  | some last =>
    if decide (20 < last.length) && !matchesSessionHeader last then some last else none
  | none => none

/-- `_extract_question` of cleaner.py.  The search
`re.search(r"Questioner:\s*(.+?)$", text, re.IGNORECASE | re.DOTALL)` takes
everything after the leftmost caseless `Questioner:`; since the group is
immediately `.strip()`-ped, the `\s*`/lazy-`.+?`/`$` bookkeeping (which can
only shave surrounding whitespace or a final newline off the group) is
equivalent to stripping the whole remainder, and a remainder without
content falls through to the paragraph fallback exactly as a failed match
does.  The subsequent `re.sub(r"\s*Ra:.*$", "", ..., re.DOTALL)` removes
everything from the leftmost case-sensitive `Ra:` on (plus the whitespace
run just before it, which the final `.strip()` also removes). -/
def extract_question (t : List Char) : Option (List Char) :=
  match splitFirstCI "questioner:".data t with
  | some br =>
    let qt := pyStrip br.2
    let qt2 := pyStrip (match splitFirstCS "Ra:".data qt with
      | some p => p.1
      | none => qt)
    if qt2 ≠ [] then some qt2 else extractQuestionFallback t
  | none => extractQuestionFallback t

/-- One Question/Answer pair of a cleaned session
(`{question_number, question, answer}` in `raw_pairs`). -/
structure RawPair where
  question_number : ℕ
  question : List Char
  answer : List Char
deriving DecidableEq, Repr

/-- `_parse_qa_pairs` of cleaner.py: split on the Ra marker; each answer
segment `segments[i]` is paired with a question extracted from
`segments[i-1]`; segments whose predecessor yields no question are
skipped; accepted pairs are numbered from 1. -/
def parse_qa_pairs (text : List Char) : List RawPair :=
  let segments := raSplit text
  if segments.length < 2 then []
  else
    ((segments.zip segments.tail).foldl
      (fun (acc : ℕ × List RawPair) seg =>
        match extract_question seg.1 with
        | none => acc
        | some q =>
          (acc.1 + 1,
           acc.2 ++ [⟨acc.1 + 1, pyStrip q, "I am Ra. ".data ++ pyStrip seg.2⟩]))
      (0, [])).2

/-! ### cleaner.py — `_parse_qa_pairs_fallback`

The numbered-reference fallback uses
  `(\d+\.\d+)\s+Questioner:\s+(.*?)(?=\d+\.\d+\s+Ra:|$)`  (DOTALL, IGNORECASE)
iterated with `finditer`, and for each match
  `Ra:\s+I am Ra[.,]?\s+(.*?)(?=\d+\.\d+\s+|$)`            (DOTALL only)
searched from the match's end. -/

/-- Matches `\d+\.\d+` at the current position, returning the matched
characters and the rest (deterministic: a greedy digit run cannot
overlap the literal dot). -/
def matchNumDotNum (l : List Char) : Option (List Char × List Char) :=
  let d1 := l.takeWhile Char.isDigit
  let r1 := l.dropWhile Char.isDigit
  if d1 = [] then none
  else
    match r1 with
    | '.' :: r2 =>
      let d2 := r2.takeWhile Char.isDigit
      let r3 := r2.dropWhile Char.isDigit
      if d2 = [] then none else some (d1 ++ '.' :: d2, r3)
    | _ => none

/-- The `$` anchor without MULTILINE: end of the text, or just before a
single final newline.  Valid because the matchers below always receive a
suffix that extends to the end of the full text. -/
def dollarAtSuffix (l : List Char) : Bool :=
  l = [] || l = ['\n']

/-- The lookahead `(?=\d+\.\d+\s+Ra:|$)` of the fallback question pattern
(IGNORECASE applies, so `Ra:` is caseless here). -/
def lookaheadQBreak (l : List Char) : Bool :=
  (match matchNumDotNum l with
   | some mr =>
     let r4 := mr.2.dropWhile pyIsSpace
     decide (r4.length < mr.2.length) && startsWithCI "ra:".data r4
   | none => false) || dollarAtSuffix l

/-- The lookahead `(?=\d+\.\d+\s+|$)` of the fallback answer pattern. -/
def lookaheadRaBreak (l : List Char) : Bool :=
  (match matchNumDotNum l with
   | some mr => decide ((mr.2.dropWhile pyIsSpace).length < mr.2.length)
   | none => false) || dollarAtSuffix l

/-- Lazy `(.*?)` up to the first position where the lookahead `la` holds
(DOTALL: a dot also matches newlines); returns the group and the rest.
At the end of the text `$`, and hence every lookahead used here, holds. -/
def takeUntilLA : ℕ → (List Char → Bool) → List Char → List Char × List Char
  | _, _, [] => ([], [])
  | 0, _, l => ([], l)
  | fuel + 1, la, c :: t =>
    if la (c :: t) then ([], c :: t)
    else
      let p := takeUntilLA fuel la t
      (c :: p.1, p.2)

/-- The fallback question pattern anchored at the current position.
Returns the question group and the text after the match's end. -/
def matchQFallbackAt (l : List Char) : Option (List Char × List Char) :=
  match matchNumDotNum l with
  | none => none
  | some mr =>
    let r1 := mr.2
    let r2 := r1.dropWhile pyIsSpace
    if decide (r2.length < r1.length) && startsWithCI "questioner:".data r2 then
      let r3 := r2.drop 11
      let r4 := r3.dropWhile pyIsSpace
      if decide (r4.length < r3.length) then
        some (takeUntilLA r4.length lookaheadQBreak r4)
      else none
    else none

/-- The fallback answer pattern anchored at the current position
(case-sensitive: its compile has no IGNORECASE).  The greedy `[.,]?` is
tried with the punctuation first and backtracks when the mandatory `\s+`
after it fails. -/
def matchRaFallbackAt (l : List Char) : Option (List Char) :=
  if startsWithCS "Ra:".data l then
    let r1 := l.drop 3
    let r2 := r1.dropWhile pyIsSpace
    if decide (r2.length < r1.length) && startsWithCS "I am Ra".data r2 then
      let r3 := r2.drop 7
      let withPunct :=
        match r3 with
        | c :: t =>
          if c = '.' || c = ',' then
            let t2 := t.dropWhile pyIsSpace
            if decide (t2.length < t.length) then some t2 else none
          else none
        | [] => none
      let withoutPunct :=
        let t2 := r3.dropWhile pyIsSpace
        if decide (t2.length < r3.length) then some t2 else none
      match withPunct.orElse (fun _ => withoutPunct) with
      | some r4 => some (takeUntilLA r4.length lookaheadRaBreak r4).1
      | none => none
    else none
  else none

/-- `ra_pattern.search(text, pos)`: leftmost match at or after `pos`,
modelled as a scan of the suffix. -/
def raSearchFB : ℕ → List Char → Option (List Char)
  | _, [] => none
  | 0, _ => none
  | fuel + 1, c :: t =>
    match matchRaFallbackAt (c :: t) with
    | some g => some g
    | none => raSearchFB fuel t

/-- The `finditer` loop of `_parse_qa_pairs_fallback`: scan left to right;
each match is numbered from 1 and paired with the leftmost Ra answer found
after its end. -/
def parseQaPairsFBAux : ℕ → List Char → ℕ → List RawPair → List RawPair
  | _, [], _, acc => acc
  | 0, _, _, acc => acc
  | fuel + 1, c :: t, i, acc =>
    match matchQFallbackAt (c :: t) with
    | some qr =>
      let question_text := pyStrip qr.1
      let answer_text :=
        match raSearchFB qr.2.length qr.2 with
        | some g => pyStrip g
        | none => []
      let answer :=
        if answer_text ≠ [] then "I am Ra. ".data ++ answer_text else []
      parseQaPairsFBAux fuel qr.2 (i + 1) (acc ++ [⟨i, question_text, answer⟩])
    | none => parseQaPairsFBAux fuel t i acc

def parse_qa_pairs_fallback (text : List Char) : List RawPair :=
  parseQaPairsFBAux text.length text 1 []

/-! ### cleaner.py — session cleaning -/

/-- `extract_qa_pairs_from_html` of cleaner.py, modelled over the flattened
page text (`BeautifulSoup(...).get_text(separator="\n")` with the
script/style/nav/header/footer/aside elements removed is the external HTML
library; its output is this function's input). -/
def extract_qa_pairs_from_text (text : List Char) (_session_n : ℕ) : List RawPair :=
  let t := normalize_whitespace text
  let pairs := parse_qa_pairs t
  if pairs = [] then parse_qa_pairs_fallback t else pairs

/-- A cleaned session record (the JSON dict written by `clean_session`). -/
structure SessionData where
  session : ℕ
  book : ℕ
  date : List Char
  questioner : List Char
  entity : List Char
  source_url : List Char
  raw_pairs : List RawPair
deriving DecidableEq, Repr

/-- `f"https://llresearch.org/channeling/the-law-of-one/session-{n}"`. -/
def session_url (n : ℕ) : List Char :=
  "https://llresearch.org/channeling/the-law-of-one/session-".data ++ Nat.toDigits 10 n

/-- `clean_session` of cleaner.py.  File-system facts are abstracted into
the booleans `cleanedExists`/`rawExists` and the flattened raw text.
`Except.ok none` models the two logged skip paths (already cleaned /
missing raw file); `Except.error` models the uncaught `ValueError` raised
by `session_to_book` while the session dict is being built — note the
date and the pairs are computed before that point, as in the source. -/
def clean_session (n : ℕ) (cleanedExists rawExists force : Bool) (text : List Char) :
    Except (List Char) (Option SessionData) :=
  if cleanedExists && !force then Except.ok none
  else if !rawExists then Except.ok none
  else
    let date := extract_date text
    let pairs := extract_qa_pairs_from_text text n
    match session_to_book n with
    | none => Except.error "ValueError: session not in any known book range".data
    | some book =>
      Except.ok (some
        { session := n
          book := book
          date := date
          questioner := "Don Elkins".data
          entity := "Ra".data
          source_url := session_url n
          raw_pairs := pairs })

/-! ### chunker.py -/

/-- `MIN_CHUNK_CHARS` of chunker.py. -/
def MIN_CHUNK_CHARS : ℕ := 50

/-- Zero-padded decimal of Python's `f"{n:03d}"` (minimum width 3). -/
def pad3 (n : ℕ) : List Char :=
  List.replicate (3 - (Nat.toDigits 10 n).length) '0' ++ Nat.toDigits 10 n

/-- `make_chunk_id` of chunker.py: `f"ra-s{session:03d}-q{question:03d}"`. -/
def make_chunk_id (session question : ℕ) : List Char :=
  "ra-s".data ++ pad3 session ++ "-q".data ++ pad3 question

/-- `build_chunk_text` of chunker.py:
`f"Questioner: {question.strip()}\n\nRa: {answer.strip()}"`. -/
def build_chunk_text (question answer : List Char) : List Char :=
  "Questioner: ".data ++ pyStrip question ++ "\n\nRa: ".data ++ pyStrip answer

/-- One retrieval chunk (the dict built inside `chunk_session`). -/
structure Chunk where
  id : List Char
  session : ℕ
  book : ℕ
  questioner : List Char
  entity : List Char
  date : List Char
  question_number : ℕ
  source_url : List Char
  text : List Char
deriving DecidableEq, Repr

/-- One iteration of the `chunk_session` loop: skip a pair whose stripped
question and answer are both empty; otherwise record the question number
in the anomaly list when the chunk text is shorter than
`MIN_CHUNK_CHARS` (logged, not rejected) and append the chunk. -/
def chunk_session_step (sd : SessionData) (acc : List Chunk × List ℕ) (pair : RawPair) :
    List Chunk × List ℕ :=
  let question := pyStrip pair.question
  let answer := pyStrip pair.answer
  if decide (question = []) && decide (answer = []) then acc
  else
    let text := build_chunk_text question answer
    let anomalies :=
      if text.length < MIN_CHUNK_CHARS then acc.2 ++ [pair.question_number] else acc.2
    let chunk : Chunk :=
      { id := make_chunk_id sd.session pair.question_number
        session := sd.session
        book := sd.book
        questioner := sd.questioner
        entity := sd.entity
        date := sd.date
        question_number := pair.question_number
        source_url := sd.source_url
        text := text }
    (acc.1 ++ [chunk], anomalies)

/-- `chunk_session` of chunker.py; the second component is the list of
logged short-chunk anomalies. -/
def chunk_session (sd : SessionData) : List Chunk × List ℕ :=
  sd.raw_pairs.foldl (chunk_session_step sd) ([], [])

/-! ### The vector store (ChromaDB), modelled from the spec

The spec's external vector store contract: a persistent collection keyed
by string id supporting `upsert(ids, vectors, documents, metadatas)`,
`query(vector, k, where?)` ranked by ascending distance with the filter
applied before ranking, `get(where?)` unranked, and `count()`. -/

/-- The flat scalar metadata stored with each chunk (the metadata dict of
`upsert_chunks`); `question_number` is optional because the retriever
defends against its absence (`meta.get`, `or 0`). -/
structure Meta where
  session : ℕ
  book : ℕ
  questioner : List Char
  entity : List Char
  date : List Char
  question_number : Option ℕ
  source_url : List Char
deriving DecidableEq, Repr

/-- A persisted `(id, vector, text, metadata)` row of the store. -/
structure IndexEntry where
  id : List Char
  embedding : List ℚ
  document : List Char
  meta : Meta
deriving DecidableEq, Repr

/-- Modelled from the spec: the store is a finite keyed collection; here a
list of entries in insertion order with at most one entry per id. -/
abbrev VStore := List IndexEntry

/-- Modelled from the spec: `count()`. -/
def storeCount (s : VStore) : ℕ := s.length

/-- Modelled from the spec: upsert of one row — overwrite the entry with
the same id in place, or append when the id is new. -/
def upsertOne (s : VStore) (e : IndexEntry) : VStore :=
  if s.any (fun x => decide (x.id = e.id)) then
    s.map (fun x => if x.id = e.id then e else x)
  else s ++ [e]

/-- Modelled from the spec: `collection.upsert` over a batch of rows. -/
def collectionUpsert (s : VStore) (rows : List IndexEntry) : VStore :=
  rows.foldl upsertOne s

/-- Modelled from the spec: `collection.get(ids=...)["ids"]` — the subset
of the requested ids that are present in the store. -/
def collectionGetIds (s : VStore) (ids : List (List Char)) : List (List Char) :=
  (s.filter (fun e => decide (e.id ∈ ids))).map (fun e => e.id)

/-- One condition of a ChromaDB `where` clause as built by
`hybrid_search` (`$eq` on session/book/entity, `$gte`/`$lte` on date). -/
inductive WhereCond where
  | eqSession (n : ℕ)
  | eqBook (n : ℕ)
  | eqEntity (e : List Char)
  | gteDate (d : List Char)
  | lteDate (d : List Char)
deriving DecidableEq, Repr

/-- A `where` clause: a single condition or an `$and` of several. -/
inductive WhereClause where
  | single (c : WhereCond)
  | conj (cs : List WhereCond)
deriving DecidableEq, Repr

/-- Lexicographic string comparison by code point (how ChromaDB compares
string metadata for `$gte`/`$lte`). -/
def lexLe : List Char → List Char → Bool
  | [], _ => true
  | _ :: _, [] => false
  | a :: as, b :: bs => if a < b then true else if b < a then false else lexLe as bs

def evalCond (m : Meta) : WhereCond → Bool
  | .eqSession n => decide (m.session = n)
  | .eqBook n => decide (m.book = n)
  | .eqEntity e => decide (m.entity = e)
  | .gteDate d => lexLe d m.date
  | .lteDate d => lexLe m.date d

def evalWhere (m : Meta) : WhereClause → Bool
  | .single c => evalCond m c
  | .conj cs => cs.all (evalCond m)

/-- Modelled from the spec: `query(vector, k, where?)` — the filter is
applied before similarity ranking; the survivors are ranked by ascending
distance and at most `k` are returned.  `dist` abstracts the cosine
distance from the query embedding to each stored vector (the embedding
service is external). -/
def collectionQuery (s : VStore) (dist : IndexEntry → ℚ) (k : ℕ) (w : Option WhereClause) :
    List (IndexEntry × ℚ) :=
  let matching := s.filter (fun e => match w with
    | none => true
    | some wc => evalWhere e.meta wc)
  let ranked :=
    List.insertionSort (fun a b : IndexEntry × ℚ => a.2 ≤ b.2)
      (matching.map (fun e => (e, dist e)))
  ranked.take k

/-- Modelled from the spec: `get(where=...)` — unranked retrieval of the
matching entries, in stored order. -/
def collectionGetWhere (s : VStore) (w : WhereClause) : List IndexEntry :=
  s.filter (fun e => evalWhere e.meta w)

/-! ### retriever.py -/

/-- A result dict of `_format_results` / `get_by_session`. -/
structure RetrievalResult where
  id : List Char
  session : ℕ
  book : ℕ
  date : List Char
  question_number : Option ℕ
  source_url : List Char
  questioner : List Char
  entity : List Char
  text : List Char
  distance : Option ℚ
deriving DecidableEq, Repr

/-- Python's `round(x, 4)` over the rationals: round half to even at four
decimal places (`Rat.floor` is the executable floor). -/
def roundHalfEven (q : ℚ) : ℤ :=
  let f := q.floor
  let r := q - f
  if r < 1 / 2 then f
  else if 1 / 2 < r then f + 1
  else if f % 2 = 0 then f else f + 1

def pyRound4 (q : ℚ) : ℚ :=
  (roundHalfEven (q * 10000) : ℚ) / 10000

/-- One row of `_format_results` (the metadata fields are present for
every row written by `upsert_chunks`, so the `meta.get` defaults do not
fire except for `question_number`, kept optional). -/
def format_result (p : IndexEntry × ℚ) : RetrievalResult :=
  { id := p.1.id
    session := p.1.meta.session
    book := p.1.meta.book
    date := p.1.meta.date
    question_number := p.1.meta.question_number
    source_url := p.1.meta.source_url
    questioner := p.1.meta.questioner
    entity := p.1.meta.entity
    text := p.1.document
    distance := some (pyRound4 p.2) }

/-- `_format_results` of retriever.py. -/
def format_results (rows : List (IndexEntry × ℚ)) : List RetrievalResult :=
  rows.map format_result

/-- `semantic_search` of retriever.py: `n_results = min(top_k, count())`,
no filter. -/
def semantic_search (s : VStore) (dist : IndexEntry → ℚ) (top_k : ℕ) : List RetrievalResult :=
  format_results (collectionQuery s dist (min top_k (storeCount s)) none)

/-- The `where_conditions` list of `hybrid_search`, in the source's append
order: session, book, entity, date_from (`$gte`), date_to (`$lte`). -/
def hybrid_where_conditions (session book : Option ℕ) (entity : Option (List Char))
    (date_from date_to : Option (List Char)) : List WhereCond :=
  (session.map WhereCond.eqSession).toList ++ (book.map WhereCond.eqBook).toList ++
    (entity.map WhereCond.eqEntity).toList ++ (date_from.map WhereCond.gteDate).toList ++
    (date_to.map WhereCond.lteDate).toList

/-- The combination step of `hybrid_search`: no clause for zero
conditions, the condition itself for one, `$and` for several. -/
def combine_where : List WhereCond → Option WhereClause
  | [] => none
  | [c] => some (.single c)
  | cs => some (.conj cs)

/-- `hybrid_search` of retriever.py. -/
def hybrid_search (s : VStore) (dist : IndexEntry → ℚ) (top_k : ℕ)
    (session book : Option ℕ) (entity : Option (List Char))
    (date_from date_to : Option (List Char)) : List RetrievalResult :=
  format_results
    (collectionQuery s dist (min top_k (storeCount s))
      (combine_where (hybrid_where_conditions session book entity date_from date_to)))

/-- The browse-mode result dict of `get_by_session`
(`distance = None`: not ranked). -/
def browse_result (e : IndexEntry) : RetrievalResult :=
  { id := e.id
    session := e.meta.session
    book := e.meta.book
    date := e.meta.date
    question_number := e.meta.question_number
    source_url := e.meta.source_url
    questioner := e.meta.questioner
    entity := e.meta.entity
    text := e.document
    distance := none }

/-- The sort key of `get_by_session`:
`c["question_number"] or 0` — a missing number sorts as 0. -/
def browse_key (r : RetrievalResult) : ℕ :=
  r.question_number.getD 0

/-- `get_by_session` of retriever.py: unranked `get` with a session
equality filter, then a stable ascending sort by `browse_key`
(Python `list.sort` is stable; insertion sort realises the same stable
ascending order). -/
def get_by_session (s : VStore) (n : ℕ) : List RetrievalResult :=
  let results := collectionGetWhere s (.single (.eqSession n))
  List.insertionSort (fun a b => browse_key a ≤ browse_key b) (results.map browse_result)

/-! ### embed.py -/

/-- The metadata dict built by `upsert_chunks` for one chunk. -/
def chunk_meta (c : Chunk) : Meta :=
  { session := c.session
    book := c.book
    questioner := c.questioner
    entity := c.entity
    date := c.date
    question_number := some c.question_number
    source_url := c.source_url }

/-- The store row for one chunk and its embedding. -/
def chunk_row (r : Chunk × List ℚ) : IndexEntry :=
  { id := r.1.id, embedding := r.2, document := r.1.text, meta := chunk_meta r.1 }

/-- The `range(0, len(ids), BATCH)` slicing of `upsert_chunks`
(`BATCH = 200`), fuelled by the row count. -/
def batched200 : ℕ → List (Chunk × List ℚ) → List (List (Chunk × List ℚ))
  | _, [] => []
  | 0, _ => []
  | fuel + 1, r :: t => ((r :: t).take 200) :: batched200 fuel ((r :: t).drop 200)

/-- `upsert_chunks` of embed.py: zip chunks with their embeddings and
upsert them into the store in batches of 200. -/
def upsert_chunks (s : VStore) (chunks : List Chunk) (embeddings : List (List ℚ)) : VStore :=
  let rows := chunks.zip embeddings
  (batched200 rows.length rows).foldl
    (fun st batch => collectionUpsert st (batch.map chunk_row)) s

/-- The already-embedded filter of `embed_and_store` (step 4 of the
source): without `force`, keep only the chunks whose ids are not yet in
the collection. -/
def embed_new_chunks (s : VStore) (chunks : List Chunk) (force : Bool) : List Chunk :=
  if force then chunks
  else
    let existing_ids := collectionGetIds s (chunks.map (fun c => c.id))
    chunks.filter (fun c => decide (c.id ∉ existing_ids))

/-- `embed_and_store` of embed.py.  The chunks file is abstracted into the
`chunks` argument and the Ollama embedding service into `embedFn` (the
reachability check is modelled as passing; an unreachable service aborts
the whole run).  `none` models the `sys.exit(1)` on an empty chunk list.
The second component of the result counts the embedding-service calls
made (`client.embeddings` is called once per new chunk text). -/
def embed_and_store (s : VStore) (chunks : List Chunk) (embedFn : List Char → List ℚ)
    (force : Bool) : Option (VStore × ℕ) :=
  if chunks = [] then none
  else
    let new_chunks := embed_new_chunks s chunks force
    if new_chunks = [] then some (s, 0)
    else
      let texts := new_chunks.map (fun c => c.text)
      let embeddings := texts.map embedFn
      some (upsert_chunks s new_chunks embeddings, texts.length)

/-! ## Claim C1 — the `date` field

The spec claims every produced date is an ISO-8601 string or `"unknown"`,
and that lexicographic comparison of stored dates is therefore
chronological.  `extract_date`'s first pattern matches human-readable
dates such as "January 15, 1981" and returns them verbatim. -/

/-- A page text whose first 2000 characters carry a human-readable date. -/
def c1_text1 : List Char :=
  "The Law of One, Session 1. January 15, 1981. Questioner: What is the Law of One?".data

/-- A second page text with a later date earlier in the alphabet. -/
def c1_text2 : List Char :=
  "The Law of One, Session 50. April 2, 1981. Questioner: Hi?".data

/-- The `YYYY-MM-DD` shape of an ISO-8601 date string. -/
def iso_date_shape : List Char → Bool
  | [y1, y2, y3, y4, h1, m1, m2, h2, d1, d2] =>
    y1.isDigit && y2.isDigit && y3.isDigit && y4.isDigit && h1 = '-' &&
      m1.isDigit && m2.isDigit && h2 = '-' && d1.isDigit && d2.isDigit
  | _ => false

/-- Claim C1 (code bug): `extract_date` returns the human-readable date
"January 15, 1981" verbatim — neither an ISO-8601 date string nor the
sentinel "unknown" — and lexicographic comparison of two such stored
dates ("April 2, 1981" sorts before "January 15, 1981") contradicts the
chronological order witnessed by their ISO forms. -/
theorem extract_date_not_iso_c1 :
    extract_date c1_text1 = "January 15, 1981".data ∧
    iso_date_shape (extract_date c1_text1) = false ∧
    decide (extract_date c1_text1 = "unknown".data) = false ∧
    extract_date c1_text2 = "April 2, 1981".data ∧
    lexLe (extract_date c1_text2) (extract_date c1_text1) = true ∧
    lexLe "1981-04-02".data "1981-01-15".data = false := by
  decide

/-! ## Claim C4 — one question segment and one answer segment per chunk

On any session with at least two structurally parsed pairs, every answer
but the last retains the next pair's `Questioner:` block (the split on the
Ra marker keeps it inside the preceding segment), so the first chunk's
text carries two question labels. -/

/-- A well-formed two-pair session transcript. -/
def c4_doc : List Char :=
  "Questioner: Is this correct?\nRa: I am Ra. Yes.\nQuestioner: What is love?\nRa: I am Ra. Love is light.".data

/-- The cleaned session built from `c4_doc` exactly as `clean_session`
builds it (book 1, both speaker labels fixed). -/
def c4_session : SessionData :=
  { session := 1
    book := 1
    date := "1981-01-15".data
    questioner := "Don Elkins".data
    entity := "Ra".data
    source_url := session_url 1
    raw_pairs := parse_qa_pairs c4_doc }

/-- Claim C4 (code bug): chunking the two-pair session parsed from
`c4_doc` produces a first chunk whose text contains the "Questioner:"
label twice — the second pair's question leaks into the first pair's
answer — refuting the exactly-one-question-segment invariant (the
"Ra:" label does occur exactly once per chunk, and both pairs had
non-empty question and answer). -/
theorem chunk_text_double_question_c4 :
    (parse_qa_pairs c4_doc).length = 2 ∧
    ((chunk_session c4_session).1.map (fun c => countSub "Questioner:".data c.text)) = [2, 1] ∧
    ((chunk_session c4_session).1.map (fun c => countSub "Ra:".data c.text)) = [1, 1] ∧
    (parse_qa_pairs c4_doc).all
      (fun p => !decide (p.question = []) && !decide (p.answer = [])) = true := by
  decide

/-! ## Claim C6 — the dangling-question scenario

The spec's scenario: a document with turns [asker, respondent, asker] and
no trailing respondent turn yields exactly 0 complete pairs from the
primary pass.  The code pairs the leading question with the respondent's
answer (1 pair), and the dangling question's text is carried into that
pair's answer. -/

/-- A document with three turns [asker, respondent, asker] and no
trailing respondent turn. -/
def c6_doc : List Char :=
  "Questioner: Will you comment?\nRa: I am Ra. We will.\nQuestioner: What is the density?".data

/-- Claim C6 (counterexample): the structural pass yields one complete
pair on the [asker, respondent, asker] document, not zero. -/
theorem dangling_question_not_zero_pairs_c6 :
    (parse_qa_pairs c6_doc).length = 1 := by
  decide

/-- Claim C6 (amended): the structural pass yields exactly 1 complete
pair — the leading [asker, respondent] pair — on the
[asker, respondent, asker] document; the dangling question is never
paired as a question, but its text leaks into that pair's answer. -/
theorem dangling_question_one_pair_c6 :
    parse_qa_pairs c6_doc =
      [⟨1, "Will you comment?".data,
        "I am Ra. We will.\nQuestioner: What is the density?".data⟩] := by
  decide

/-! ## Claim C10 — out-of-range sequence numbers raise -/

/-- The configured book ranges cover exactly the sessions 1..106; outside
them `session_to_book` raises (returns `none`). -/
lemma session_to_book_eq_none_iff (n : ℕ) :
    session_to_book n = none ↔ ¬(1 ≤ n ∧ n ≤ 106) := by
  simp only [session_to_book, BOOK_MAP, List.findSome?_cons, List.findSome?_nil]
  split_ifs <;> simp <;> omega

/-- Claim C10: for every sequence number outside 1..106 the group
derivation returns no book (the Python raises `ValueError`), and cleaning
an existing raw document with such a sequence number ends in that error —
not in a logged skip — whenever the cache-skip branch is not taken. -/
theorem clean_session_out_of_range_c10 (n : ℕ) :
    (session_to_book n = none ↔ ¬(1 ≤ n ∧ n ≤ 106)) ∧
    (∀ (cleanedExists force : Bool) (text : List Char),
      (cleanedExists && !force) = false →
      ¬(1 ≤ n ∧ n ≤ 106) →
      clean_session n cleanedExists true force text =
        Except.error "ValueError: session not in any known book range".data) := by
  refine ⟨session_to_book_eq_none_iff n, ?_⟩
  intro cleanedExists force text hskip hout
  have hb : session_to_book n = none := (session_to_book_eq_none_iff n).2 hout
  simp [clean_session, hskip, hb]

/-- Witness for C10: session 107 with a present raw file and no cached
output errors out instead of being skipped. -/
theorem clean_session_out_of_range_c10_witness :
    clean_session 107 false true false [] =
      Except.error "ValueError: session not in any known book range".data :=
  (clean_session_out_of_range_c10 107).2 false false [] (by decide) (by decide)

/-! ## Claim C7 — one chunk per pair, short chunks flagged but kept -/

/-- A pair is kept unless its stripped question and answer are both
empty (the skip test of `chunk_session`). -/
def pair_kept (p : RawPair) : Bool :=
  !(decide (pyStrip p.question = []) && decide (pyStrip p.answer = []))

/-- The chunk `chunk_session` builds for a kept pair. -/
def chunk_of (sd : SessionData) (p : RawPair) : Chunk :=
  { id := make_chunk_id sd.session p.question_number
    session := sd.session
    book := sd.book
    questioner := sd.questioner
    entity := sd.entity
    date := sd.date
    question_number := p.question_number
    source_url := sd.source_url
    text := build_chunk_text (pyStrip p.question) (pyStrip p.answer) }

/-- The anomaly test: the built text is below `MIN_CHUNK_CHARS`. -/
def chunk_is_short (sd : SessionData) (p : RawPair) : Bool :=
  decide ((chunk_of sd p).text.length < MIN_CHUNK_CHARS)

/-- The `chunk_session` loop, generalised over its accumulators: it
appends exactly one chunk per kept pair and records exactly the short
kept pairs as anomalies. -/
lemma chunk_session_go (sd : SessionData) :
    ∀ (l : List RawPair) (cs : List Chunk) (an : List ℕ),
      l.foldl (chunk_session_step sd) (cs, an) =
        (cs ++ (l.filter pair_kept).map (chunk_of sd),
         an ++ ((l.filter pair_kept).filter (chunk_is_short sd)).map
            (fun p => p.question_number)) := by
  intro l
  induction l with
  | nil => intro cs an; simp
  | cons p t ih =>
    intro cs an
    by_cases hq : (decide (pyStrip p.question = []) && decide (pyStrip p.answer = [])) = true
    · have hk : pair_kept p = false := by simp [pair_kept, hq]
      have hstep : chunk_session_step sd (cs, an) p = (cs, an) := by
        simp only [chunk_session_step]
        rw [if_pos hq]
      simp only [List.foldl_cons, hstep, List.filter_cons, hk]
      exact ih cs an
    · have hk : pair_kept p = true := by simp [pair_kept, hq]
      by_cases hs : chunk_is_short sd p = true
      · have hstep : chunk_session_step sd (cs, an) p =
            (cs ++ [chunk_of sd p], an ++ [p.question_number]) := by
          simp only [chunk_session_step]
          rw [if_neg (by simp_all)]
          have hlen : (build_chunk_text (pyStrip p.question) (pyStrip p.answer)).length
              < MIN_CHUNK_CHARS := by
            simpa [chunk_is_short, chunk_of] using hs
          simp [hlen, chunk_of]
        rw [List.foldl_cons, hstep, ih]
        rw [List.filter_cons_of_pos hk, List.filter_cons_of_pos hs]
        simp
      · have hstep : chunk_session_step sd (cs, an) p = (cs ++ [chunk_of sd p], an) := by
          simp only [chunk_session_step]
          rw [if_neg (by simp_all)]
          have hlen : ¬ (build_chunk_text (pyStrip p.question) (pyStrip p.answer)).length
              < MIN_CHUNK_CHARS := by
            simpa [chunk_is_short, chunk_of] using hs
          simp [hlen, chunk_of]
        rw [List.foldl_cons, hstep, ih]
        rw [List.filter_cons_of_pos hk, List.filter_cons_of_neg hs]
        simp

/-- Claim C7: `chunk_session` emits exactly one chunk per pair, skipping
only the pairs whose question and answer are both empty; the anomaly log
holds exactly the kept pairs whose text is below the minimum length, and
every kept pair's chunk — short or not — is in the output. -/
theorem chunk_session_one_chunk_per_pair_c7 (sd : SessionData) :
    (chunk_session sd).1 = (sd.raw_pairs.filter pair_kept).map (chunk_of sd) ∧
    (chunk_session sd).2 = ((sd.raw_pairs.filter pair_kept).filter (chunk_is_short sd)).map
      (fun p => p.question_number) ∧
    (∀ p ∈ sd.raw_pairs, pair_kept p = true → chunk_of sd p ∈ (chunk_session sd).1) := by
  have h := chunk_session_go sd sd.raw_pairs [] []
  refine ⟨?_, ?_, ?_⟩
  · rw [chunk_session, h]; simp
  · rw [chunk_session, h]; simp
  · intro p hp hkeep
    rw [chunk_session, h]
    simp only [List.nil_append]
    exact List.mem_map_of_mem _ (List.mem_filter.2 ⟨hp, hkeep⟩)

/-- A tiny session holding one very short pair and one both-empty pair. -/
def c7_session : SessionData :=
  { session := 2
    book := 1
    date := "unknown".data
    questioner := "Don Elkins".data
    entity := "Ra".data
    source_url := session_url 2
    raw_pairs := [⟨1, "Hi?".data, "Yes.".data⟩, ⟨2, [], "  ".data⟩] }

/-- Witness for C7: a pair below the minimum length is kept (and the
skipped both-empty pair drops out). -/
theorem chunk_session_c7_witness :
    chunk_of c7_session ⟨1, "Hi?".data, "Yes.".data⟩ ∈ (chunk_session c7_session).1 :=
  (chunk_session_one_chunk_per_pair_c7 c7_session).2.2 _ (by decide) (by decide)

/-! ## Claim C5 — chunk-id injectivity and ordering

`make_chunk_id` pads both numbers to (at least) three decimal digits, so
within the corpus domain the id is an order-embedding of the pair
`(sequence_number, local_question_number)` under lexicographic order. -/

lemma toDigitsCore_small (fuel n : ℕ) (acc : List Char) (hn : n < 10) (hf : 1 ≤ fuel) :
    Nat.toDigitsCore 10 fuel n acc = Nat.digitChar n :: acc := by
  match fuel with
  | 0 => omega
  | f + 1 =>
    simp [Nat.toDigitsCore, Nat.div_eq_of_lt hn, Nat.mod_eq_of_lt hn]

lemma toDigitsCore_two (fuel n : ℕ) (acc : List Char) (h1 : 10 ≤ n) (h2 : n < 100)
    (hf : 2 ≤ fuel) :
    Nat.toDigitsCore 10 fuel n acc = Nat.digitChar (n / 10) :: Nat.digitChar (n % 10) :: acc := by
  match fuel with
  | 0 => omega
  | 1 => omega
  | f + 2 =>
    have hd : n / 10 ≠ 0 := by omega
    simp only [Nat.toDigitsCore, hd, if_false]
    exact toDigitsCore_small (f + 1) (n / 10) _ (by omega) (by omega)

lemma toDigitsCore_three (fuel n : ℕ) (acc : List Char) (h1 : 100 ≤ n) (h2 : n < 1000)
    (hf : 3 ≤ fuel) :
    Nat.toDigitsCore 10 fuel n acc =
      Nat.digitChar (n / 100) :: Nat.digitChar (n / 10 % 10) :: Nat.digitChar (n % 10) :: acc := by
  match fuel with
  | 0 => omega
  | 1 => omega
  | 2 => omega
  | f + 3 =>
    have hd : n / 10 ≠ 0 := by omega
    simp only [Nat.toDigitsCore, hd, if_false]
    have e1 : ¬(n / 10 / 10 = 0) := by omega
    have e2 : n / 10 / 10 / 10 = 0 := by omega
    have e3 : n / 10 / 10 % 10 = n / 100 := by omega
    simp [e1, e2, e3]

/-- The three decimal digits of `n < 1000`, most significant first. -/
def dig3 (n : ℕ) : List Char :=
  [Nat.digitChar (n / 100), Nat.digitChar (n / 10 % 10), Nat.digitChar (n % 10)]

lemma pad3_eq_dig3 {n : ℕ} (h : n < 1000) : pad3 n = dig3 n := by
  unfold pad3 Nat.toDigits dig3
  rcases Nat.lt_or_ge n 10 with h10 | h10
  · rw [toDigitsCore_small (n + 1) n [] h10 (by omega)]
    have e1 : n / 100 = 0 := by omega
    have e2 : n / 10 % 10 = 0 := by omega
    have e3 : n % 10 = n := by omega
    rw [e1, e2, e3]
    rfl
  · rcases Nat.lt_or_ge n 100 with h100 | h100
    · rw [toDigitsCore_two (n + 1) n [] h10 h100 (by omega)]
      have e1 : n / 100 = 0 := by omega
      have e2 : n / 10 % 10 = n / 10 := by omega
      rw [e1, e2]
      rfl
    · rw [toDigitsCore_three (n + 1) n [] h100 h (by omega)]
      rfl

lemma digitChar_order :
    ∀ a < 10, ∀ b < 10,
      ((Nat.digitChar a < Nat.digitChar b) ↔ a < b) ∧
      ((Nat.digitChar a = Nat.digitChar b) ↔ a = b) := by
  decide

/-- Lexicographic comparison of two three-character lists. -/
lemma lex3_iff {a1 a2 a3 b1 b2 b3 : Char} :
    List.Lex (· < ·) [a1, a2, a3] [b1, b2, b3] ↔
      a1 < b1 ∨ (a1 = b1 ∧ (a2 < b2 ∨ (a2 = b2 ∧ a3 < b3))) := by
  constructor
  · intro h
    cases h with
    | rel h => exact Or.inl h
    | cons h =>
      cases h with
      | rel h => exact Or.inr ⟨rfl, Or.inl h⟩
      | cons h =>
        cases h with
        | rel h => exact Or.inr ⟨rfl, Or.inr ⟨rfl, h⟩⟩
        | cons h => cases h
  · rintro (h | ⟨rfl, h | ⟨rfl, h⟩⟩)
    · exact .rel h
    · exact .cons (.rel h)
    · exact .cons (.cons (.rel h))

lemma pad3_lt_iff {m n : ℕ} (hm : m < 1000) (hn : n < 1000) :
    List.Lex (· < ·) (pad3 m) (pad3 n) ↔ m < n := by
  rw [pad3_eq_dig3 hm, pad3_eq_dig3 hn]
  unfold dig3
  rw [lex3_iff]
  have h1 := digitChar_order (m / 100) (by omega) (n / 100) (by omega)
  have h2 := digitChar_order (m / 10 % 10) (by omega) (n / 10 % 10) (by omega)
  have h3 := digitChar_order (m % 10) (by omega) (n % 10) (by omega)
  constructor
  · rintro (h | ⟨he, h | ⟨he2, h⟩⟩)
    · have := h1.1.mp h; omega
    · have hb := h1.2.mp he; have := h2.1.mp h; omega
    · have hb := h1.2.mp he; have hb2 := h2.2.mp he2; have := h3.1.mp h; omega
  · intro h
    rcases Nat.lt_trichotomy (m / 100) (n / 100) with hc | hc | hc
    · exact Or.inl (h1.1.mpr hc)
    · rcases Nat.lt_trichotomy (m / 10 % 10) (n / 10 % 10) with hd | hd | hd
      · exact Or.inr ⟨h1.2.mpr hc, Or.inl (h2.1.mpr hd)⟩
      · have hlast : m % 10 < n % 10 := by omega
        exact Or.inr ⟨h1.2.mpr hc, Or.inr ⟨h2.2.mpr hd, h3.1.mpr hlast⟩⟩
      · omega
    · omega

lemma pad3_inj {m n : ℕ} (hm : m < 1000) (hn : n < 1000) (h : pad3 m = pad3 n) : m = n := by
  rw [pad3_eq_dig3 hm, pad3_eq_dig3 hn] at h
  unfold dig3 at h
  simp only [List.cons.injEq, and_true] at h
  have h1 := digitChar_order (m / 100) (by omega) (n / 100) (by omega)
  have h2 := digitChar_order (m / 10 % 10) (by omega) (n / 10 % 10) (by omega)
  have h3 := digitChar_order (m % 10) (by omega) (n % 10) (by omega)
  have e1 := h1.2.mp h.1
  have e2 := h2.2.mp h.2.1
  have e3 := h3.2.mp h.2.2
  omega

lemma pad3_length {n : ℕ} (h : n < 1000) : (pad3 n).length = 3 := by
  rw [pad3_eq_dig3 h]; rfl

/-- Dropping an identical prefix preserves and reflects lexicographic
order (for the irreflexive character order). -/
lemma lex_append_left_iff (p l1 l2 : List Char) :
    List.Lex (· < ·) (p ++ l1) (p ++ l2) ↔ List.Lex (· < ·) l1 l2 := by
  induction p with
  | nil => exact Iff.rfl
  | cons c t ih =>
    simpa [List.Lex.cons_iff] using ih

/-- Splitting lexicographic order at an equal-length break point. -/
lemma lex_append_iff : ∀ (p1 p2 a b : List Char), p1.length = p2.length →
    (List.Lex (· < ·) (p1 ++ a) (p2 ++ b) ↔
      List.Lex (· < ·) p1 p2 ∨ (p1 = p2 ∧ List.Lex (· < ·) a b)) := by
  intro p1
  induction p1 with
  | nil =>
    intro p2 a b hlen
    have : p2 = [] := by
      cases p2 with
      | nil => rfl
      | cons x xs => simp at hlen
    subst this
    simp
  | cons c t ih =>
    intro p2 a b hlen
    cases p2 with
    | nil => simp at hlen
    | cons d u =>
      simp only [List.length_cons, Nat.add_right_cancel_iff] at hlen
      constructor
      · intro h
        cases h with
        | rel h => exact Or.inl (.rel h)
        | cons h =>
          rcases (ih _ a b hlen).1 h with h' | ⟨he, hab⟩
          · exact Or.inl (.cons h')
          · exact Or.inr ⟨by rw [he], hab⟩
      · rintro (h | ⟨he, hab⟩)
        · cases h with
          | rel h => exact .rel h
          | cons h => exact .cons ((ih _ a b hlen).2 (Or.inl h))
        · injection he with h1 h2
          subst h1; subst h2
          exact .cons ((ih _ a b hlen).2 (Or.inr ⟨rfl, hab⟩))

/-- Claim C5: over the corpus domain (sessions 1..106, question numbers
1..999), `make_chunk_id` is injective and its lexicographic order agrees
with the order on `(sequence_number, local_question_number)`. -/
theorem make_chunk_id_injective_ordered_c5 (s1 q1 s2 q2 : ℕ)
    (hs1 : 1 ≤ s1 ∧ s1 ≤ 106) (hq1 : 1 ≤ q1 ∧ q1 ≤ 999)
    (hs2 : 1 ≤ s2 ∧ s2 ≤ 106) (hq2 : 1 ≤ q2 ∧ q2 ≤ 999) :
    (make_chunk_id s1 q1 = make_chunk_id s2 q2 ↔ (s1 = s2 ∧ q1 = q2)) ∧
    (List.Lex (· < ·) (make_chunk_id s1 q1) (make_chunk_id s2 q2) ↔
      (s1 < s2 ∨ (s1 = s2 ∧ q1 < q2))) := by
  have hs1' : s1 < 1000 := by omega
  have hs2' : s2 < 1000 := by omega
  have hq1' : q1 < 1000 := by omega
  have hq2' : q2 < 1000 := by omega
  unfold make_chunk_id
  constructor
  · constructor
    · intro h
      rw [List.append_assoc, List.append_assoc, List.append_assoc, List.append_assoc,
        List.append_right_inj] at h
      obtain ⟨hps, hrest⟩ := List.append_inj h (by rw [pad3_length hs1', pad3_length hs2'])
      rw [List.append_right_inj] at hrest
      exact ⟨pad3_inj hs1' hs2' hps, pad3_inj hq1' hq2' hrest⟩
    · rintro ⟨rfl, rfl⟩; rfl
  · rw [List.append_assoc, List.append_assoc, List.append_assoc, List.append_assoc,
      lex_append_left_iff,
      lex_append_iff (pad3 s1) (pad3 s2) _ _ (by rw [pad3_length hs1', pad3_length hs2']),
      lex_append_left_iff, pad3_lt_iff hs1' hs2', pad3_lt_iff hq1' hq2']
    constructor
    · rintro (h | ⟨he, h⟩)
      · exact Or.inl h
      · exact Or.inr ⟨pad3_inj hs1' hs2' he, h⟩
    · rintro (h | ⟨rfl, h⟩)
      · exact Or.inl h
      · exact Or.inr ⟨rfl, h⟩

/-- Witness for C5 at sessions 3 and 4, question numbers 7 and 1. -/
theorem make_chunk_id_c5_witness :
    (make_chunk_id 3 7 = make_chunk_id 4 1 ↔ ((3 : ℕ) = 4 ∧ (7 : ℕ) = 1)) ∧
    (List.Lex (· < ·) (make_chunk_id 3 7) (make_chunk_id 4 1) ↔
      ((3 : ℕ) < 4 ∨ ((3 : ℕ) = 4 ∧ (7 : ℕ) < 1))) :=
  make_chunk_id_injective_ordered_c5 3 7 4 1 (by decide) (by decide) (by decide) (by decide)

/-! ## Shared lemmas about the store model -/

lemma rat_floor_eq_int_floor (q : ℚ) : (Rat.floor q : ℤ) = ⌊q⌋ :=
  (Rat.floor_def' q).trans Rat.floor_def.symm

lemma roundHalfEven_ge_floor (q : ℚ) : ⌊q⌋ ≤ roundHalfEven q := by
  unfold roundHalfEven
  rw [rat_floor_eq_int_floor]
  dsimp only
  split_ifs <;> omega

lemma roundHalfEven_le_floor_add_one (q : ℚ) : roundHalfEven q ≤ ⌊q⌋ + 1 := by
  unfold roundHalfEven
  rw [rat_floor_eq_int_floor]
  dsimp only
  split_ifs <;> omega

lemma roundHalfEven_mono {p q : ℚ} (h : p ≤ q) : roundHalfEven p ≤ roundHalfEven q := by
  rcases lt_or_eq_of_le (Int.floor_le_floor h) with hf | hf
  · calc roundHalfEven p ≤ ⌊p⌋ + 1 := roundHalfEven_le_floor_add_one p
      _ ≤ ⌊q⌋ := by omega
      _ ≤ roundHalfEven q := roundHalfEven_ge_floor q
  · unfold roundHalfEven
    rw [rat_floor_eq_int_floor, rat_floor_eq_int_floor, ← hf]
    have hr : p - (⌊p⌋ : ℚ) ≤ q - (⌊p⌋ : ℚ) := by linarith
    dsimp only
    split_ifs <;> first | omega | (exfalso; linarith)

lemma pyRound4_mono {p q : ℚ} (h : p ≤ q) : pyRound4 p ≤ pyRound4 q := by
  unfold pyRound4
  have h1 : p * 10000 ≤ q * 10000 := by linarith
  have h2 : ((roundHalfEven (p * 10000) : ℚ)) ≤ ((roundHalfEven (q * 10000) : ℚ)) := by
    exact_mod_cast roundHalfEven_mono h1
  linarith

/-- Membership in a query result: the row's entry is stored and satisfies
the where clause when one was supplied. -/
lemma mem_collectionQuery {s : VStore} {dist : IndexEntry → ℚ} {k : ℕ}
    {w : Option WhereClause} {p : IndexEntry × ℚ}
    (h : p ∈ collectionQuery s dist k w) :
    p.1 ∈ s ∧ (∀ wc, w = some wc → evalWhere p.1.meta wc = true) := by
  unfold collectionQuery at h
  have h1 := List.mem_of_mem_take h
  have h2 := (List.perm_insertionSort (fun a b : IndexEntry × ℚ => a.2 ≤ b.2) _).mem_iff.1 h1
  rcases List.mem_map.1 h2 with ⟨e, he, rfl⟩
  rcases List.mem_filter.1 he with ⟨hes, hok⟩
  refine ⟨hes, fun wc hw => ?_⟩
  rw [hw] at hok
  simpa using hok

/-- A query result is sorted by ascending distance. -/
lemma sorted_collectionQuery (s : VStore) (dist : IndexEntry → ℚ) (k : ℕ)
    (w : Option WhereClause) :
    List.Pairwise (fun a b : IndexEntry × ℚ => a.2 ≤ b.2) (collectionQuery s dist k w) := by
  unfold collectionQuery
  haveI : IsTotal (IndexEntry × ℚ) (fun a b => a.2 ≤ b.2) := ⟨fun a b => le_total a.2 b.2⟩
  haveI : IsTrans (IndexEntry × ℚ) (fun a b => a.2 ≤ b.2) :=
    ⟨fun _ _ _ h1 h2 => le_trans h1 h2⟩
  exact List.Pairwise.sublist (List.take_sublist _ _)
    (List.sorted_insertionSort (fun a b : IndexEntry × ℚ => a.2 ≤ b.2) _)

/-! ## Claim C3 — semantic search: bound and order -/

lemma semantic_search_length (s : VStore) (dist : IndexEntry → ℚ) (top_k : ℕ) :
    (semantic_search s dist top_k).length = min top_k (storeCount s) := by
  have hfilter : (s.filter fun e => match (none : Option WhereClause) with
      | none => true
      | some wc => evalWhere e.meta wc) = s := List.filter_true s
  unfold semantic_search format_results collectionQuery storeCount
  rw [hfilter]
  rw [List.length_map, List.length_take, List.length_insertionSort, List.length_map]
  omega

/-- Claim C3: `semantic_search` returns exactly `min top_k (count)`
results (so an empty corpus yields an empty list, not an error, and
`top_k` larger than the corpus is capped), ordered by non-decreasing
distance. -/
theorem semantic_search_bounded_sorted_c3 (s : VStore) (dist : IndexEntry → ℚ) (top_k : ℕ) :
    (semantic_search s dist top_k).length = min top_k (storeCount s) ∧
    List.Sorted (· ≤ ·) ((semantic_search s dist top_k).filterMap (fun r => r.distance)) ∧
    semantic_search [] dist top_k = [] := by
  refine ⟨semantic_search_length s dist top_k, ?_, ?_⟩
  · have hp := sorted_collectionQuery s dist (min top_k (storeCount s)) none
    unfold semantic_search format_results
    rw [List.filterMap_map]
    rw [show ((fun r : RetrievalResult => r.distance) ∘ format_result) =
      (some ∘ fun p : IndexEntry × ℚ => pyRound4 p.2) from rfl]
    rw [List.filterMap_eq_map]
    exact List.Pairwise.map _ (fun a b hab => pyRound4_mono hab) hp
  · have h0 := semantic_search_length [] dist top_k
    simp only [storeCount, List.length_nil, Nat.min_zero] at h0
    exact List.length_eq_zero.1 h0

/-! ## Claim C2 — hybrid search: conjunctive pre-ranking filters -/

lemma combine_where_eq_none {conds : List WhereCond} :
    combine_where conds = none ↔ conds = [] := by
  cases conds with
  | nil => simp [combine_where]
  | cons c rest => cases rest <;> simp [combine_where]

lemma evalWhere_combine {m : Meta} {conds : List WhereCond} {wc : WhereClause}
    (hc : combine_where conds = some wc) (he : evalWhere m wc = true) :
    ∀ c ∈ conds, evalCond m c = true := by
  cases conds with
  | nil => simp [combine_where] at hc
  | cons c1 rest =>
    cases rest with
    | nil =>
      have hc' : some (WhereClause.single c1) = some wc := hc
      injection hc' with hc''
      subst hc''
      intro c hcmem
      rcases List.mem_singleton.1 hcmem with rfl
      simpa [evalWhere] using he
    | cons c2 rest2 =>
      have hc' : some (WhereClause.conj (c1 :: c2 :: rest2)) = some wc := hc
      injection hc' with hc''
      subst hc''
      intro c hcmem
      exact List.all_eq_true.1 (by simpa [evalWhere] using he) c hcmem

/-- Claim C2: every result of `hybrid_search` satisfies every supplied
filter — the conditions are conjoined and applied by the store before
ranking, so a group filter pins the result's book field and date bounds
pin the (lexicographically compared) date field. -/
theorem hybrid_search_filters_c2 (s : VStore) (dist : IndexEntry → ℚ) (top_k : ℕ)
    (session book : Option ℕ) (entity : Option (List Char))
    (date_from date_to : Option (List Char)) (r : RetrievalResult)
    (hr : r ∈ hybrid_search s dist top_k session book entity date_from date_to) :
    (∀ n, session = some n → r.session = n) ∧
    (∀ g, book = some g → r.book = g) ∧
    (∀ e, entity = some e → r.entity = e) ∧
    (∀ d, date_from = some d → lexLe d r.date = true) ∧
    (∀ d, date_to = some d → lexLe r.date d = true) := by
  unfold hybrid_search format_results at hr
  rcases List.mem_map.1 hr with ⟨p, hp, rfl⟩
  have hq := mem_collectionQuery hp
  have hall : ∀ c ∈ hybrid_where_conditions session book entity date_from date_to,
      evalCond p.1.meta c = true := by
    intro c hc
    cases hw : combine_where (hybrid_where_conditions session book entity date_from date_to) with
    | none =>
      rw [combine_where_eq_none] at hw
      rw [hw] at hc
      simp at hc
    | some wc => exact evalWhere_combine hw (hq.2 wc hw) c hc
  refine ⟨?_, ?_, ?_, ?_, ?_⟩
  · rintro n rfl
    have hm : WhereCond.eqSession n ∈
        hybrid_where_conditions (some n) book entity date_from date_to := by
      simp [hybrid_where_conditions]
    simpa [evalCond, format_result] using hall _ hm
  · rintro g rfl
    have hm : WhereCond.eqBook g ∈
        hybrid_where_conditions session (some g) entity date_from date_to := by
      simp [hybrid_where_conditions]
    simpa [evalCond, format_result] using hall _ hm
  · rintro e rfl
    have hm : WhereCond.eqEntity e ∈
        hybrid_where_conditions session book (some e) date_from date_to := by
      simp [hybrid_where_conditions]
    simpa [evalCond, format_result] using hall _ hm
  · rintro d rfl
    have hm : WhereCond.gteDate d ∈
        hybrid_where_conditions session book entity (some d) date_to := by
      simp [hybrid_where_conditions]
    simpa [evalCond, format_result] using hall _ hm
  · rintro d rfl
    have hm : WhereCond.lteDate d ∈
        hybrid_where_conditions session book entity date_from (some d) := by
      simp [hybrid_where_conditions]
    simpa [evalCond, format_result] using hall _ hm

/-- A stored entry in book 2 with a 1981 date. -/
def c2_entry : IndexEntry :=
  { id := "ra-s028-q001".data
    embedding := [1]
    document := "Questioner: Q\n\nRa: I am Ra. A".data
    meta :=
      { session := 28
        book := 2
        questioner := "Don Elkins".data
        entity := "Ra".data
        date := "1981-06-01".data
        question_number := some 1
        source_url := session_url 28 } }

/-- Witness for C2: a filtered hybrid search over a one-entry store
returns the entry, and the theorem pins its book and date fields. -/
theorem hybrid_search_c2_witness :
    format_result (c2_entry, 0) ∈
      hybrid_search [c2_entry] (fun _ => 0) 5 none (some 2) none
        (some "1981-01-01".data) (some "1981-12-31".data) ∧
    (format_result (c2_entry, 0)).book = 2 ∧
    lexLe "1981-01-01".data (format_result (c2_entry, 0)).date = true ∧
    lexLe (format_result (c2_entry, 0)).date "1981-12-31".data = true := by
  have heval : hybrid_search [c2_entry] (fun _ => 0) 5 none (some 2) none
      (some "1981-01-01".data) (some "1981-12-31".data) = [format_result (c2_entry, 0)] := rfl
  have hmem : format_result (c2_entry, 0) ∈
      hybrid_search [c2_entry] (fun _ => 0) 5 none (some 2) none
        (some "1981-01-01".data) (some "1981-12-31".data) := by
    rw [heval]; exact List.mem_singleton_self _
  have hth := hybrid_search_filters_c2 [c2_entry] (fun _ => 0) 5 none (some 2) none
    (some "1981-01-01".data) (some "1981-12-31".data) (format_result (c2_entry, 0)) hmem
  exact ⟨hmem, hth.2.1 2 rfl, hth.2.2.2.1 _ rfl, hth.2.2.2.2 _ rfl⟩

/-! ## Claim C9 — browse by session -/

/-- Claim C9: `get_by_session` returns a permutation of exactly the
stored entries with the requested session number, sorted ascending by the
question-number key (a missing number sorting as 0), every result
unranked (`distance = none`); when the keys of the matching entries are
pairwise distinct the order is strictly ascending. -/
theorem get_by_session_browse_c9 (s : VStore) (n : ℕ) :
    (get_by_session s n).Perm
      ((s.filter (fun e => decide (e.meta.session = n))).map browse_result) ∧
    List.Pairwise (fun a b => browse_key a ≤ browse_key b) (get_by_session s n) ∧
    (∀ r ∈ get_by_session s n, r.distance = none ∧ r.session = n) ∧
    (((s.filter (fun e => decide (e.meta.session = n))).map
        (fun e => e.meta.question_number.getD 0)).Nodup →
      List.Pairwise (fun a b => browse_key a < browse_key b) (get_by_session s n)) := by
  have hperm : (get_by_session s n).Perm
      ((s.filter (fun e => decide (e.meta.session = n))).map browse_result) :=
    List.perm_insertionSort (fun a b => browse_key a ≤ browse_key b) _
  have hsorted : List.Pairwise (fun a b => browse_key a ≤ browse_key b) (get_by_session s n) := by
    haveI : IsTotal RetrievalResult (fun a b => browse_key a ≤ browse_key b) :=
      ⟨fun a b => Nat.le_total (browse_key a) (browse_key b)⟩
    haveI : IsTrans RetrievalResult (fun a b => browse_key a ≤ browse_key b) :=
      ⟨fun _ _ _ h1 h2 => Nat.le_trans h1 h2⟩
    exact List.sorted_insertionSort (fun a b => browse_key a ≤ browse_key b) _
  refine ⟨hperm, hsorted, ?_, ?_⟩
  · intro r hr
    have hr' := hperm.mem_iff.1 hr
    rcases List.mem_map.1 hr' with ⟨e, he, rfl⟩
    rcases List.mem_filter.1 he with ⟨_, hsess⟩
    exact ⟨rfl, by simpa using hsess⟩
  · intro hnd
    have hkeys : ((get_by_session s n).map browse_key).Nodup := by
      have hmapperm := hperm.map browse_key
      rw [List.map_map] at hmapperm
      have : (browse_key ∘ browse_result) =
          (fun e : IndexEntry => e.meta.question_number.getD 0) := rfl
      rw [this] at hmapperm
      exact hmapperm.nodup_iff.2 hnd
    have hne : List.Pairwise (fun a b => browse_key a ≠ browse_key b) (get_by_session s n) :=
      List.pairwise_map.1 hkeys
    exact (hsorted.and hne).imp (fun hab => lt_of_le_of_ne hab.1 hab.2)

/-- A three-entry store for session 1 with keys 2, missing (0) and 1. -/
def c9_store : VStore :=
  [{ id := "ra-s001-q002".data, embedding := [1], document := "b".data
     meta := { session := 1, book := 1, questioner := "Don Elkins".data, entity := "Ra".data
               date := "unknown".data, question_number := some 2
               source_url := session_url 1 } },
   { id := "ra-s001-qxxx".data, embedding := [1], document := "c".data
     meta := { session := 1, book := 1, questioner := "Don Elkins".data, entity := "Ra".data
               date := "unknown".data, question_number := none
               source_url := session_url 1 } },
   { id := "ra-s001-q001".data, embedding := [1], document := "a".data
     meta := { session := 1, book := 1, questioner := "Don Elkins".data, entity := "Ra".data
               date := "unknown".data, question_number := some 1
               source_url := session_url 1 } }]

/-- Witness for C9: with pairwise distinct keys the browse order is
strictly ascending. -/
theorem get_by_session_c9_witness :
    List.Pairwise (fun a b => browse_key a < browse_key b) (get_by_session c9_store 1) :=
  (get_by_session_browse_c9 c9_store 1).2.2.2 (by decide)

/-! ## Claim C8 — idempotent indexing -/

/-- The ids stored in the collection. -/
def storeIds (s : VStore) : List (List Char) :=
  s.map (fun e => e.id)

lemma storeIds_upsertOne_of_mem {x : List Char} {s : VStore} {e : IndexEntry}
    (h : x ∈ storeIds s) : x ∈ storeIds (upsertOne s e) := by
  unfold upsertOne
  split_ifs with hex
  · have hids : storeIds (s.map (fun y => if y.id = e.id then e else y)) = storeIds s := by
      unfold storeIds
      rw [List.map_map]
      refine List.map_congr_left ?_
      intro y _
      by_cases hy : y.id = e.id
      · simp [hy]
      · simp [hy]
    rw [hids]
    exact h
  · unfold storeIds at h ⊢
    rw [List.map_append]
    exact List.mem_append_left _ h

lemma storeIds_upsertOne_self (s : VStore) (e : IndexEntry) :
    e.id ∈ storeIds (upsertOne s e) := by
  unfold upsertOne
  split_ifs with hex
  · rcases List.any_eq_true.1 hex with ⟨y, hy, hyid⟩
    have hyid' : y.id = e.id := of_decide_eq_true hyid
    unfold storeIds
    rw [List.map_map]
    refine List.mem_map.2 ⟨y, hy, ?_⟩
    simp [hyid']
  · unfold storeIds
    rw [List.map_append]
    exact List.mem_append_right _ (by simp)

lemma storeIds_collectionUpsert_of_mem {x : List Char} {s : VStore} :
    ∀ {rows : List IndexEntry}, x ∈ storeIds s → x ∈ storeIds (collectionUpsert s rows) := by
  intro rows
  induction rows generalizing s with
  | nil => intro h; exact h
  | cons r t ih =>
    intro h
    exact ih (storeIds_upsertOne_of_mem h)

lemma storeIds_collectionUpsert_self {s : VStore} {rows : List IndexEntry} {r : IndexEntry}
    (h : r ∈ rows) : r.id ∈ storeIds (collectionUpsert s rows) := by
  induction rows generalizing s with
  | nil => cases h
  | cons a t ih =>
    rcases List.mem_cons.1 h with rfl | hmem
    · show r.id ∈ storeIds (collectionUpsert (upsertOne s r) t)
      exact storeIds_collectionUpsert_of_mem (storeIds_upsertOne_self s r)
    · show r.id ∈ storeIds (collectionUpsert (upsertOne s a) t)
      exact ih hmem

lemma batched200_flatten : ∀ (fuel : ℕ) (rows : List (Chunk × List ℚ)),
    rows.length ≤ fuel → (batched200 fuel rows).flatten = rows := by
  intro fuel
  induction fuel with
  | zero =>
    intro rows h
    have : rows = [] := List.eq_nil_of_length_eq_zero (by omega)
    subst this
    rfl
  | succ f ih =>
    intro rows h
    cases rows with
    | nil => rfl
    | cons r t =>
      show ((r :: t).take 200 ++ (batched200 f ((r :: t).drop 200)).flatten) = r :: t
      rw [ih ((r :: t).drop 200) (by
        simp only [List.length_drop, List.length_cons] at h ⊢
        omega)]
      exact List.take_append_drop 200 (r :: t)

lemma foldl_collectionUpsert_batches :
    ∀ (bs : List (List (Chunk × List ℚ))) (s : VStore),
      bs.foldl (fun st batch => collectionUpsert st (batch.map chunk_row)) s =
        collectionUpsert s (bs.flatten.map chunk_row) := by
  intro bs
  induction bs with
  | nil => intro s; rfl
  | cons b t ih =>
    intro s
    rw [List.foldl_cons, ih, List.flatten_cons, List.map_append]
    unfold collectionUpsert
    rw [List.foldl_append]

lemma upsert_chunks_eq (s : VStore) (chunks : List Chunk) (embeddings : List (List ℚ)) :
    upsert_chunks s chunks embeddings =
      collectionUpsert s ((chunks.zip embeddings).map chunk_row) := by
  unfold upsert_chunks
  rw [foldl_collectionUpsert_batches, batched200_flatten _ _ (Nat.le_refl _)]

lemma zip_map_self {α β : Type} (l : List α) (g : α → β) :
    l.zip (l.map g) = l.map (fun a => (a, g a)) := by
  conv_lhs => rw [show l.zip (l.map g) = (l.map id).zip (l.map g) by rw [List.map_id]]
  rw [List.zip_map']
  rfl

/-- After a no-force `embed_and_store` run, every chunk id is present in
the resulting store. -/
lemma embed_and_store_ids (s s1 : VStore) (chunks : List Chunk)
    (embedFn : List Char → List ℚ) (n1 : ℕ)
    (h : embed_and_store s chunks embedFn false = some (s1, n1)) :
    ∀ c ∈ chunks, c.id ∈ storeIds s1 := by
  intro c hcm
  by_cases hc : chunks = []
  · subst hc; cases hcm
  · have h' : (if chunks = [] then (none : Option (VStore × ℕ))
        else if embed_new_chunks s chunks false = [] then some (s, 0)
        else some (upsert_chunks s (embed_new_chunks s chunks false)
            (((embed_new_chunks s chunks false).map (fun c => c.text)).map embedFn),
          ((embed_new_chunks s chunks false).map (fun c => c.text)).length)) =
        some (s1, n1) := h
    rw [if_neg hc] at h'
    have hnewdef : embed_new_chunks s chunks false =
        chunks.filter (fun c =>
          decide (c.id ∉ collectionGetIds s (chunks.map (fun c => c.id)))) := rfl
    by_cases hnew : embed_new_chunks s chunks false = []
    · rw [if_pos hnew] at h'
      injection h' with h''
      injection h'' with hs hn
      subst hs
      have hkept := List.filter_eq_nil_iff.1 (hnewdef ▸ hnew) c hcm
      have hcid : c.id ∈ collectionGetIds s (chunks.map (fun c => c.id)) := by
        by_contra hno
        exact hkept (decide_eq_true hno)
      rcases List.mem_map.1 hcid with ⟨e, he, heid⟩
      have hmem : e.id ∈ storeIds s := List.mem_map_of_mem _ (List.mem_of_mem_filter he)
      rw [heid] at hmem
      exact hmem
    · rw [if_neg hnew] at h'
      injection h' with h''
      injection h'' with hs hn
      rw [← hs, upsert_chunks_eq]
      by_cases hcn : c ∈ embed_new_chunks s chunks false
      · rw [List.map_map, zip_map_self]
        have hrow : chunk_row (c, embedFn c.text) ∈
            ((embed_new_chunks s chunks false).map
              (fun a => (a, embedFn a.text))).map chunk_row :=
          List.mem_map_of_mem _ (List.mem_map_of_mem _ hcn)
        have hmem := storeIds_collectionUpsert_self (s := s) hrow
        simpa using hmem
      · have hold : c.id ∈ collectionGetIds s (chunks.map (fun c => c.id)) := by
          by_contra hno
          refine hcn ?_
          rw [hnewdef]
          exact List.mem_filter.2 ⟨hcm, decide_eq_true hno⟩
        rcases List.mem_map.1 hold with ⟨e, he, heid⟩
        have hmem : e.id ∈ storeIds s := List.mem_map_of_mem _ (List.mem_of_mem_filter he)
        rw [heid] at hmem
        exact storeIds_collectionUpsert_of_mem hmem

/-- Claim C8: re-running `embed_and_store` (without force) on the same
chunk set performs zero embedding calls and returns the store unchanged
(count and every stored vector/metadata included). -/
theorem embed_and_store_idempotent_c8 (s s1 : VStore) (chunks : List Chunk)
    (embedFn : List Char → List ℚ) (n1 : ℕ)
    (h : embed_and_store s chunks embedFn false = some (s1, n1)) :
    embed_and_store s1 chunks embedFn false = some (s1, 0) := by
  have hids := embed_and_store_ids s s1 chunks embedFn n1 h
  have hc : ¬ chunks = [] := by
    intro hc
    rw [hc] at h
    cases h
  have hnew : embed_new_chunks s1 chunks false = [] := by
    show chunks.filter (fun c =>
      decide (c.id ∉ collectionGetIds s1 (chunks.map (fun c => c.id)))) = []
    rw [List.filter_eq_nil_iff]
    intro c hcm
    have hid := hids c hcm
    rcases List.mem_map.1 hid with ⟨e, he, heid⟩
    have hin : c.id ∈ collectionGetIds s1 (chunks.map (fun c => c.id)) := by
      refine List.mem_map.2 ⟨e, List.mem_filter.2 ⟨he, ?_⟩, heid⟩
      rw [heid]
      exact decide_eq_true (List.mem_map_of_mem _ hcm)
    simp [hin]
  show (if chunks = [] then (none : Option (VStore × ℕ))
    else if embed_new_chunks s1 chunks false = [] then some (s1, 0)
    else some (upsert_chunks s1 (embed_new_chunks s1 chunks false)
        (((embed_new_chunks s1 chunks false).map (fun c => c.text)).map embedFn),
      ((embed_new_chunks s1 chunks false).map (fun c => c.text)).length)) = some (s1, 0)
  rw [if_neg hc, if_pos hnew]

/-- Two tiny chunks for the witness run. -/
def c8_chunk1 : Chunk :=
  { id := "ra-s001-q001".data, session := 1, book := 1, questioner := "Don Elkins".data
    entity := "Ra".data, date := "unknown".data, question_number := 1
    source_url := session_url 1, text := "Questioner: A?\n\nRa: I am Ra. B.".data }

def c8_chunk2 : Chunk :=
  { id := "ra-s001-q002".data, session := 1, book := 1, questioner := "Don Elkins".data
    entity := "Ra".data, date := "unknown".data, question_number := 2
    source_url := session_url 1, text := "Questioner: C?\n\nRa: I am Ra. D.".data }

/-- The store produced by the first run over the empty store. -/
def c8_store1 : VStore :=
  [chunk_row (c8_chunk1, [1]), chunk_row (c8_chunk2, [1])]

/-- Witness for C8: after indexing two chunks into an empty store, the
second run makes zero embedding calls and leaves the store unchanged. -/
theorem embed_and_store_c8_witness :
    embed_and_store c8_store1 [c8_chunk1, c8_chunk2] (fun _ => [1]) false =
      some (c8_store1, 0) :=
  embed_and_store_idempotent_c8 [] c8_store1 [c8_chunk1, c8_chunk2] (fun _ => [1]) 2 rfl

end LlRag
